import Mathlib

/-!
Shallow embedding of `src/app.py` (Zenith YouTube downloader).

Conventions of the embedding:
* Python numbers (`int` sizes/byte counts, `float` times and rates) are
  modelled as rationals `ℚ`; `time.time()` is passed in explicitly as a
  parameter wherever the source calls it.
* The Streamlit UI objects are modelled by their information content only:
  a progress bar is either attached or not (`Bool`), and an emission to the
  UI is a `ProgressEvent` value returned alongside the new state.
* Calls into the provider library (stream download, process spawning) are
  modelled by an explicit outcome datatype: the function receives which
  outcome the external call had and reacts exactly as the source does.
-/

namespace ZenithApp

/-- One UI update produced by `DownloadMonitor.on_progress`: `barValue` is
the number passed to `st.progress` (the source passes `min(pct, 1.0)`),
`pct` is the raw fraction used in the text line, `speed` the computed
bytes-per-second figure. -/
structure ProgressEvent where
  barValue : ℚ
  pct : ℚ
  downloaded : ℚ
  total : ℚ
  speed : ℚ
  bytes_remaining : ℚ
  deriving Repr, DecidableEq

/-- State of the `DownloadMonitor` class: `bar`/`text` collapse to a single
flag saying whether a UI bar has been attached (`self.bar = None` iff
`bar = false`); the numeric fields are as in `__init__`. -/
structure DownloadMonitor where
  bar : Bool
  total_size : ℚ
  last_time : ℚ
  last_bytes : ℚ
  deriving Repr, DecidableEq

/-- `DownloadMonitor.__init__`: no bar attached, all counters zero. -/
def DownloadMonitor.init : DownloadMonitor :=
  { bar := false, total_size := 0, last_time := 0, last_bytes := 0 }

/-- `DownloadMonitor.set_ui(bar, text, total_size)`: attaches the UI and
resets the transfer session; `now` is the value of `time.time()` at the
call. `last_bytes` starts at `total_size` (bytes_remaining starts at total). -/
def DownloadMonitor.set_ui (now total_size : ℚ) : DownloadMonitor :=
  { bar := true, total_size := total_size, last_time := now,
    last_bytes := total_size }

/-- `DownloadMonitor.on_progress(stream, chunk, bytes_remaining)`.
`current_time` is `time.time()` at the call. Returns the new state and the
emitted UI update, if any. Mirrors the source line by line: the guard
`if not self.bar: return`, the throttle test
`current_time - last_time > 0.1 or bytes_remaining == 0`, the guarded
percentage (`0` when `total_size <= 0`), the guarded speed (`0` when
`time_diff <= 0`), `min(pct, 1.0)` passed to the bar, and the tracking
update of `last_time`/`last_bytes` inside the emission branch only. -/
def DownloadMonitor.on_progress (s : DownloadMonitor)
    (current_time bytes_remaining : ℚ) :
    DownloadMonitor × Option ProgressEvent :=
  if s.bar = false then (s, none)
  else if current_time - s.last_time > 1/10 ∨ bytes_remaining = 0 then
    let downloaded := s.total_size - bytes_remaining
    let pct := if s.total_size > 0 then downloaded / s.total_size else 0
    let time_diff := current_time - s.last_time
    let bytes_diff := s.last_bytes - bytes_remaining
    let speed := if time_diff > 0 then bytes_diff / time_diff else 0
    ({ s with last_time := current_time, last_bytes := bytes_remaining },
      some { barValue := min pct 1, pct := pct, downloaded := downloaded,
             total := s.total_size, speed := speed,
             bytes_remaining := bytes_remaining })
  else (s, none)

/-- Feeds a list of `(time, bytes_remaining)` callback invocations through
the monitor in order, collecting every emitted event. -/
def runMonitor (s : DownloadMonitor) :
    List (ℚ × ℚ) → DownloadMonitor × List ProgressEvent
  | [] => (s, [])
  | (t, r) :: rest =>
    let step := s.on_progress t r
    let next := runMonitor step.1 rest
    (next.1, step.2.toList ++ next.2)

/-- Measurement predicate for the throttling property: an emission that is
not a forced final one, i.e. whose reported `bytes_remaining` is non-zero. -/
def nonfinal (e : ProgressEvent) : Bool :=
  decide (e.bytes_remaining ≠ 0)

/-- A provider stream object, restricted to the attributes the source
reads: `resolution` (absent or a string, where Python treats `None` and the
empty string as falsy), `is_progressive`, audio-only classification, the
reported `filesize` in bytes, and the average audio bitrate `abr`. -/
structure YStream where
  resolution : Option String
  is_progressive : Bool
  only_audio : Bool
  filesize : ℕ
  abr : ℕ
  deriving Repr, DecidableEq

/-- Helper for the `resolutions` dict loop; `seen` is the set of keys
already in the dict. A stream is added when `s.resolution` is truthy
(present and non-empty) and its resolution is not yet a key; Python dicts
keep insertion order, so the result is an association list in
first-occurrence order. -/
def resolutionsAux (seen : List String) : List YStream → List (String × YStream)
  | [] => []
  | s :: rest =>
    match s.resolution with
    | none => resolutionsAux seen rest
    | some r =>
      if r ≠ "" ∧ r ∉ seen then (r, s) :: resolutionsAux (r :: seen) rest
      else resolutionsAux seen rest

/-- The `resolutions` dict built from `all_streams` (already filtered to
mp4 video streams and ordered by the provider): `for s in all_streams: if
s.resolution and s.resolution not in resolutions: resolutions[s.resolution] = s`. -/
def resolutions (all_streams : List YStream) : List (String × YStream) :=
  resolutionsAux [] all_streams

/-- Measurement for the first-seen-wins property: the first stream of the
enumeration carrying resolution `r`. -/
def first_with_resolution (r : String) (l : List YStream) : Option YStream :=
  l.find? (fun s => decide (s.resolution = some r))

/-- `yt.streams.filter(only_audio=True).order_by('abr').desc().first()`:
the provider sorts the audio-only streams by `abr` and `.desc()` reverses,
so the chain yields the head of the descending-by-`abr` ordering. -/
def best_audio (streams : List YStream) : Option YStream :=
  ((streams.filter (·.only_audio)).mergeSort (fun a b => b.abr ≤ a.abr)).head?

/-- `audio_size = best_audio.filesize if best_audio else 0`. -/
def audio_size (ba : Option YStream) : ℕ :=
  match ba with
  | some a => a.filesize
  | none => 0

/-- The `power_labels` dict of `format_bytes`. -/
def power_labels : ℕ → String
  | 0 => ""
  | 1 => "K"
  | 2 => "M"
  | 3 => "G"
  | _ => "T"

/-- The `while size > power: size /= power; n += 1` loop of `format_bytes`,
with an explicit iteration bound. The source's dict lookup `power_labels[n]`
raises `KeyError` once `n` exceeds 4, so runs that would need more than 4
divisions crash in the source; the model stops dividing there instead (no
claim touches such sizes). -/
def format_bytes_loop : ℕ → ℚ → ℕ → ℚ × ℕ
  | 0, size, n => (size, n)
  | fuel + 1, size, n =>
    if size > 2 ^ 10 then format_bytes_loop fuel (size / 2 ^ 10) (n + 1)
    else (size, n)

/-- `format_bytes(size)`. The numeric rendering of the Python format spec
`.1f` is abstracted as `toString` of the rational (display detail only). -/
def format_bytes (size : ℚ) : String :=
  let p := format_bytes_loop 4 size 0
  toString p.1 ++ " " ++ power_labels p.2 ++ "B"

/-- The `res_options` dict: one entry per `resolutions` entry, labelled
"(High Res)" with `filesize + audio_size` for adaptive (non-progressive)
streams and "(Standard)" with `filesize` otherwise, mapping the label back
to the resolution string. Distinct resolutions give distinct labels, so
the dict is modelled as the association list in iteration order. -/
def res_options (rs : List (String × YStream)) (asize : ℕ) :
    List (String × String) :=
  rs.map (fun p =>
    if p.2.is_progressive = false then
      (p.1 ++ " (High Res) - ~" ++ format_bytes ((p.2.filesize + asize : ℕ) : ℚ),
        p.1)
    else
      (p.1 ++ " (Standard) - " ++ format_bytes ((p.2.filesize : ℕ) : ℚ), p.1))

/-- The character class of `re.sub(r'[<>:"/\\|?*]', '', name)`. -/
def illegal_chars : List Char := ['<', '>', ':', '"', '/', '\\', '|', '?', '*']

/-- `sanitize_filename(name)`: `re.sub` with an empty replacement deletes
every occurrence of a character of the class, keeping all other characters
in order. -/
def sanitize_filename (name : String) : String :=
  String.mk (name.data.filter (fun c => ! illegal_chars.contains c))

/-- Outcome of the `subprocess.run(cmd, check=True, ...)` invocation of
ffmpeg: the executable may be absent (`FileNotFoundError`) or the process
runs and exits with a code (`check=True` raises `CalledProcessError` on a
non-zero code). -/
inductive RunOutcome where
  | spawnFailed
  | exited (code : ℕ)
  deriving Repr, DecidableEq

/-- `merge_audio_video(video_path, audio_path, output_path)`: returns the
boolean result together with the diagnostic shown via `st.error`, if any.
It is a total function of the invocation outcome — every failure of the
external call is translated into `(false, some message)`; nothing
propagates past the contract boundary. -/
def merge_audio_video (run : RunOutcome) : Bool × Option String :=
  match run with
  | .exited 0 => (true, none)
  | .exited _ => (false, some "Error merging files")
  | .spawnFailed => (false, some "FFmpeg not found! Please install FFmpeg.")

/-- Outcome of one provider `download(...)` call: it returns a path having
written the file, or raises. A failing call may leave a partial file of its
own phase behind (provider behaviour, not modelled); the model records only
files of completed calls. -/
inductive DlOutcome where
  | ok
  | err
  deriving Repr, DecidableEq

/-- Which files exist under the download directory after the adaptive
branch: the `temp_video_*` file, the `temp_audio_*` file, and the merged
final output. -/
structure Disk where
  temp_video : Bool
  temp_audio : Bool
  final_file : Bool
  deriving Repr, DecidableEq

/-- External behaviour driving one run of the adaptive branch: whether
`best_audio` is present (the source calls `best_audio.download(...)`
unconditionally, which raises `AttributeError` on `None`), the outcomes of
the two downloads, and the outcome of the ffmpeg invocation. -/
structure AdaptiveEnv where
  best_audio_present : Bool
  video_dl : DlOutcome
  audio_dl : DlOutcome
  merge_run : RunOutcome
  deriving Repr, DecidableEq

/-- Result of the adaptive branch: the disk contents, whether an exception
escaped to the `except` handler (which only shows the error), and the merge
result when the merge stage was reached. -/
structure AdaptiveResult where
  disk : Disk
  raised : Bool
  merge_success : Option Bool
  deriving Repr, DecidableEq

/-- The adaptive arm of the `try` block (video download, audio download,
merge, then the two `if os.path.exists(...): os.remove(...)` lines). An
exception in either download jumps to the `except` handler, which runs no
cleanup; the cleanup lines execute only when both downloads returned, and
then remove both temp files whatever the merge result was. On merge
success ffmpeg has written the final output file. -/
def adaptive_download (env : AdaptiveEnv) : AdaptiveResult :=
  match env.video_dl with
  | .err =>
    { disk := { temp_video := false, temp_audio := false, final_file := false },
      raised := true, merge_success := none }
  | .ok =>
    if env.best_audio_present = false then
      { disk := { temp_video := true, temp_audio := false, final_file := false },
        raised := true, merge_success := none }
    else
      match env.audio_dl with
      | .err =>
        { disk := { temp_video := true, temp_audio := false, final_file := false },
          raised := true, merge_success := none }
      | .ok =>
        let success := (merge_audio_video env.merge_run).1
        { disk := { temp_video := false, temp_audio := false,
                    final_file := success },
          raised := false, merge_success := some success }

/-- Guard case of `on_progress`: with no bar attached the call returns at
once, leaving the state untouched and emitting nothing. -/
theorem on_progress_of_bar_false (s : DownloadMonitor) (t r : ℚ)
    (h : s.bar = false) : s.on_progress t r = (s, none) := by
  simp [DownloadMonitor.on_progress, h]

/-- Emission case of `on_progress`: bar attached and the throttle test
passes. -/
theorem on_progress_of_cond (s : DownloadMonitor) (t r : ℚ)
    (h : s.bar = true) (hc : t - s.last_time > 1/10 ∨ r = 0) :
    s.on_progress t r =
      ({ s with last_time := t, last_bytes := r },
        some { barValue :=
                 min (if s.total_size > 0 then (s.total_size - r) / s.total_size else 0) 1,
               pct := if s.total_size > 0 then (s.total_size - r) / s.total_size else 0,
               downloaded := s.total_size - r,
               total := s.total_size,
               speed := if t - s.last_time > 0 then (s.last_bytes - r) / (t - s.last_time) else 0,
               bytes_remaining := r }) := by
  unfold DownloadMonitor.on_progress
  rw [if_neg (by simp [h]), if_pos hc]

/-- Throttled case of `on_progress`: the test fails, nothing happens. -/
theorem on_progress_of_not_cond (s : DownloadMonitor) (t r : ℚ)
    (hc : ¬(t - s.last_time > 1/10 ∨ r = 0)) :
    s.on_progress t r = (s, none) := by
  unfold DownloadMonitor.on_progress
  by_cases h : s.bar = false
  · rw [if_pos h]
  · rw [if_neg h, if_neg hc]

/-- Inversion: an emission tells us the bar was attached, the throttle test
passed, how the state was updated, and the exact event contents. -/
theorem on_progress_some_inv (s : DownloadMonitor) (t r : ℚ) (e : ProgressEvent)
    (hemit : (s.on_progress t r).2 = some e) :
    s.bar = true ∧ (t - s.last_time > 1/10 ∨ r = 0) ∧
    (s.on_progress t r).1 = { s with last_time := t, last_bytes := r } ∧
    e = { barValue :=
            min (if s.total_size > 0 then (s.total_size - r) / s.total_size else 0) 1,
          pct := if s.total_size > 0 then (s.total_size - r) / s.total_size else 0,
          downloaded := s.total_size - r,
          total := s.total_size,
          speed := if t - s.last_time > 0 then (s.last_bytes - r) / (t - s.last_time) else 0,
          bytes_remaining := r } := by
  cases hb : s.bar with
  | false =>
    rw [on_progress_of_bar_false s t r hb] at hemit
    exact absurd hemit (by simp)
  | true =>
    by_cases hc : t - s.last_time > 1/10 ∨ r = 0
    · have h := on_progress_of_cond s t r hb hc
      rw [h] at hemit
      simp only [Option.some.injEq] at hemit
      exact ⟨rfl, hc, by rw [h]; simp [hb], hemit.symm⟩
    · rw [on_progress_of_not_cond s t r hc] at hemit
      exact absurd hemit (by simp)

/-- C10: for every call to `on_progress` before any `set_ui` (no UI bar
attached), the monitor emits nothing and none of its fields are modified —
the call is a complete no-op. -/
theorem c10_on_progress_noop (s : DownloadMonitor) (t r : ℚ)
    (h : s.bar = false) : s.on_progress t r = (s, none) :=
  on_progress_of_bar_false s t r h

/-- Witness for C10: the freshly constructed monitor has no bar, and a
callback leaves it untouched and silent. -/
theorem c10_on_progress_noop_witness :
    DownloadMonitor.init.bar = false ∧
    DownloadMonitor.init.on_progress 3 7 = (DownloadMonitor.init, none) :=
  ⟨rfl, c10_on_progress_noop DownloadMonitor.init 3 7 rfl⟩

/-- C7: when the phase total is 0, every emission reports percent 0 (both
the raw fraction and the clamped bar value) instead of dividing by zero;
in particular after `set_ui(_, _, 0)` the forced call `on_progress(0)`
emits percent 0. -/
theorem c7_zero_total_percent :
    (∀ (s : DownloadMonitor) (t r : ℚ) (e : ProgressEvent), s.total_size = 0 →
        (s.on_progress t r).2 = some e → e.pct = 0 ∧ e.barValue = 0) ∧
    (∀ t0 t : ℚ,
        ((DownloadMonitor.set_ui t0 0).on_progress t 0).2.map ProgressEvent.pct
          = some 0) := by
  constructor
  · intro s t r e h0 hemit
    obtain ⟨-, -, -, he⟩ := on_progress_some_inv s t r e hemit
    subst he
    constructor
    · simp [h0]
    · simp [h0]
  · intro t0 t
    rw [on_progress_of_cond (DownloadMonitor.set_ui t0 0) t 0 rfl (Or.inr rfl)]
    simp [DownloadMonitor.set_ui]

/-- Witness for C7 at `set_ui(_, _, 0)` followed by `on_progress(0)`. -/
theorem c7_zero_total_percent_witness :
    ((DownloadMonitor.set_ui 0 0).on_progress 1 0).2.map ProgressEvent.pct = some 0 ∧
    ((DownloadMonitor.set_ui 0 0).on_progress 1 0).2.map ProgressEvent.barValue
      = some 0 := by
  constructor
  · exact c7_zero_total_percent.2 0 1
  · cases hemit : ((DownloadMonitor.set_ui 0 0).on_progress 1 0).2 with
    | none =>
      have h2 := c7_zero_total_percent.2 0 1
      rw [hemit] at h2
      simp at h2
    | some e =>
      have h := (c7_zero_total_percent.1 (DownloadMonitor.set_ui 0 0) 1 0 e rfl hemit).2
      simp [h]

/-- C8: on every emission the reported speed equals (previous remaining −
current remaining) / (current time − previous emission time), and is 0
whenever that elapsed time is ≤ 0; afterwards `last_time`/`last_bytes`
hold the current values, so successive speed windows are back-to-back. -/
theorem c8_speed_and_tracking (s : DownloadMonitor) (t r : ℚ) (e : ProgressEvent)
    (hemit : (s.on_progress t r).2 = some e) :
    e.speed = (if t - s.last_time > 0 then (s.last_bytes - r) / (t - s.last_time) else 0) ∧
    (s.on_progress t r).1.last_time = t ∧
    (s.on_progress t r).1.last_bytes = r := by
  obtain ⟨-, -, hst, he⟩ := on_progress_some_inv s t r e hemit
  subst he
  exact ⟨rfl, by rw [hst], by rw [hst]⟩

/-- Witness for C8: a monitor at total 10 with 10 bytes outstanding gets a
final callback one second later; the emitted speed is 10 bytes/s and the
tracking fields now hold the current time and remaining count. -/
theorem c8_speed_and_tracking_witness :
    ((DownloadMonitor.mk true 10 0 10).on_progress 1 0).2.map ProgressEvent.speed
      = some 10 ∧
    ((DownloadMonitor.mk true 10 0 10).on_progress 1 0).1.last_time = 1 ∧
    ((DownloadMonitor.mk true 10 0 10).on_progress 1 0).1.last_bytes = 0 := by
  have hpair := on_progress_of_cond (DownloadMonitor.mk true 10 0 10) 1 0 rfl
    (Or.inr rfl)
  cases hemit : ((DownloadMonitor.mk true 10 0 10).on_progress 1 0).2 with
  | none =>
    rw [hpair] at hemit
    simp at hemit
  | some e =>
    have h := c8_speed_and_tracking _ 1 0 e hemit
    refine ⟨?_, h.2.1, h.2.2⟩
    have hs : e.speed = 10 := by
      rw [h.1]
      norm_num
    simp [hemit, hs]

/-- C2 fails as stated: with a phase total of 10 and a callback reporting
20 bytes remaining, the value handed to the progress bar is
min((10−20)/10, 1.0) = −1, outside [0,1] — the source clamps only from
above. -/
theorem c2_percent_counterexample :
    ((DownloadMonitor.set_ui 0 10).on_progress 1 20).2.map ProgressEvent.barValue
      = some (-1) ∧ ((-1 : ℚ) < 0) := by
  have hpair := on_progress_of_cond (DownloadMonitor.set_ui 0 10) 1 20 rfl
    (Or.inl (by norm_num [DownloadMonitor.set_ui]))
  refine ⟨?_, by norm_num⟩
  rw [hpair]
  norm_num [DownloadMonitor.set_ui]

/-- C2 amended: the emitted percent is `(total − bytes_remaining)/total`
clamped from above by `min(pct, 1.0)` only; it stays in [0,1] whenever the
reported remaining bytes do not exceed the phase total, but a callback
with `bytes_remaining > total` produces a negative bar value. -/
theorem c2_percent_clamped (s : DownloadMonitor) (t r : ℚ) (e : ProgressEvent)
    (hr : r ≤ s.total_size)
    (hemit : (s.on_progress t r).2 = some e) :
    0 ≤ e.barValue ∧ e.barValue ≤ 1 := by
  obtain ⟨-, -, -, he⟩ := on_progress_some_inv s t r e hemit
  subst he
  constructor
  · dsimp only
    by_cases h0 : s.total_size > 0
    · rw [if_pos h0]
      exact le_min (div_nonneg (by linarith) h0.le) zero_le_one
    · rw [if_neg h0]
      exact le_min le_rfl zero_le_one
  · exact min_le_right _ _

/-- Witness for C2 (amended): a final callback with 0 of 10 bytes
remaining emits a bar value of exactly 1, inside [0,1]. -/
theorem c2_percent_clamped_witness :
    (0 : ℚ) ≤ (DownloadMonitor.set_ui 0 10).total_size ∧
    ((DownloadMonitor.set_ui 0 10).on_progress 1 0).2.map ProgressEvent.barValue
      = some 1 ∧
    (0 ≤ (1 : ℚ) ∧ (1 : ℚ) ≤ 1) := by
  have hpair := on_progress_of_cond (DownloadMonitor.set_ui 0 10) 1 0 rfl
    (Or.inr rfl)
  refine ⟨by norm_num [DownloadMonitor.set_ui], ?_, ?_⟩
  · rw [hpair]
    norm_num [DownloadMonitor.set_ui]
  · cases hemit : ((DownloadMonitor.set_ui 0 10).on_progress 1 0).2 with
    | none =>
      rw [hpair] at hemit
      simp at hemit
    | some e =>
      have h := c2_percent_clamped (DownloadMonitor.set_ui 0 10) 1 0 e
        (by norm_num [DownloadMonitor.set_ui]) hemit
      have he1 : e.barValue = 1 := by
        rw [hpair] at hemit
        simp only [Option.some.injEq] at hemit
        rw [← hemit]
        norm_num [DownloadMonitor.set_ui]
      rw [he1] at h
      exact h

/-- Inversion: a silent call leaves the state untouched. -/
theorem on_progress_none_inv (s : DownloadMonitor) (t r : ℚ)
    (h : (s.on_progress t r).2 = none) : s.on_progress t r = (s, none) := by
  by_cases hb : s.bar = false
  · exact on_progress_of_bar_false s t r hb
  · have hb' : s.bar = true := by
      revert hb
      cases s.bar <;> simp
    by_cases hc : t - s.last_time > 1/10 ∨ r = 0
    · rw [on_progress_of_cond s t r hb' hc] at h
      exact absurd h (by simp)
    · exact on_progress_of_not_cond s t r hc

/-- Once `last_time` has entered a burst window `[t0, t0 + 1/20]`, later
calls inside the window can never pass the 0.1 s throttle test, so every
emission they produce is a forced final one (`bytes_remaining = 0`). -/
theorem burst_forced_only (t0 : ℚ) :
    ∀ (calls : List (ℚ × ℚ)) (s : DownloadMonitor),
      (∀ c ∈ calls, t0 ≤ c.1 ∧ c.1 ≤ t0 + 1/20) →
      t0 ≤ s.last_time →
      ((runMonitor s calls).2.countP nonfinal) = 0
  | [], s, _, _ => by simp [runMonitor]
  | (t, r) :: rest, s, hb, hl => by
    obtain ⟨ht0, ht1⟩ := hb (t, r) (List.mem_cons_self _ _)
    have hrest : ∀ c ∈ rest, t0 ≤ c.1 ∧ c.1 ≤ t0 + 1/20 :=
      fun c hc => hb c (List.mem_cons_of_mem _ hc)
    have hnottime : ¬(t - s.last_time > 1/10) := by
      intro hgt
      linarith
    simp only [runMonitor]
    by_cases hr : r = 0
    · cases hbar : s.bar with
      | false =>
        rw [on_progress_of_bar_false s t r hbar]
        simpa using burst_forced_only t0 rest s hrest hl
      | true =>
        rw [on_progress_of_cond s t r hbar (Or.inr hr)]
        have htail := burst_forced_only t0 rest
          { s with last_time := t, last_bytes := r } hrest (by simpa using ht0)
        simpa [List.countP_cons, nonfinal, hr] using htail
    · have hnc : ¬(t - s.last_time > 1/10 ∨ r = 0) := by
        rintro (h | h)
        · exact hnottime h
        · exact hr h
      rw [on_progress_of_not_cond s t r hnc]
      simpa using burst_forced_only t0 rest s hrest hl

/-- C3: a progress event is emitted iff the time elapsed since the last
emission exceeds 0.1 s or `bytes_remaining` is 0; and over any burst of
calls whose times lie inside one 50 ms window, at most one emission is a
non-final one (`bytes_remaining ≠ 0`) — forced final emissions excepted. -/
theorem c3_throttle :
    (∀ (s : DownloadMonitor) (t r : ℚ), s.bar = true →
        (((s.on_progress t r).2).isSome = true ↔
          (t - s.last_time > 1/10 ∨ r = 0))) ∧
    (∀ (s : DownloadMonitor) (t0 : ℚ) (calls : List (ℚ × ℚ)),
        (∀ c ∈ calls, t0 ≤ c.1 ∧ c.1 ≤ t0 + 1/20) →
        ((runMonitor s calls).2.countP nonfinal) ≤ 1) := by
  constructor
  · intro s t r hbar
    constructor
    · intro hsome
      obtain ⟨e, he⟩ := Option.isSome_iff_exists.mp hsome
      exact (on_progress_some_inv s t r e he).2.1
    · intro hc
      rw [on_progress_of_cond s t r hbar hc]
      simp
  · intro s t0 calls
    induction calls generalizing s with
    | nil =>
      intro _
      simp [runMonitor]
    | cons c rest ih =>
      intro hb
      obtain ⟨t, r⟩ := c
      have hrest : ∀ c ∈ rest, t0 ≤ c.1 ∧ c.1 ≤ t0 + 1/20 :=
        fun c hc => hb c (List.mem_cons_of_mem _ hc)
      obtain ⟨ht0, ht1⟩ := hb (t, r) (List.mem_cons_self _ _)
      simp only [runMonitor]
      cases hemit : (s.on_progress t r).2 with
      | none =>
        rw [on_progress_none_inv s t r hemit]
        simpa using ih s hrest
      | some e =>
        have hinv := on_progress_some_inv s t r e hemit
        have hsp : s.on_progress t r =
            ({ s with last_time := t, last_bytes := r }, some e) :=
          Prod.ext_iff.mpr ⟨hinv.2.2.1, hemit⟩
        rw [hsp]
        have htail := burst_forced_only t0 rest
          { s with last_time := t, last_bytes := r } hrest (by simpa using ht0)
        simp only [Option.toList_some, List.singleton_append, List.countP_cons,
          htail]
        split <;> simp

/-- Witness for C3: one forced emission goes through, and a concrete burst
of three calls inside the window [1, 1 + 1/20] yields at most one
non-final emission. -/
theorem c3_throttle_witness :
    (DownloadMonitor.set_ui 0 10).bar = true ∧
    ((DownloadMonitor.set_ui 0 10).on_progress 1 0).2.isSome = true ∧
    ((runMonitor (DownloadMonitor.set_ui 0 10)
        [(1, 5), (51/50, 3), (21/20, 0)]).2.countP nonfinal) ≤ 1 := by
  refine ⟨rfl, ?_, ?_⟩
  · exact (c3_throttle.1 (DownloadMonitor.set_ui 0 10) 1 0 rfl).mpr (Or.inr rfl)
  · refine c3_throttle.2 (DownloadMonitor.set_ui 0 10) 1
      [(1, 5), (51/50, 3), (21/20, 0)] ?_
    intro c hc
    fin_cases hc <;> constructor <;> norm_num

/-- Every entry produced by the dict loop has a key that was not yet seen,
is non-empty, matches its stream's resolution, and holds the first stream
of the remaining enumeration with that resolution. -/
theorem resolutionsAux_spec :
    ∀ (l : List YStream) (seen : List String),
      ∀ p ∈ resolutionsAux seen l,
        p.1 ∉ seen ∧ p.1 ≠ "" ∧ p.2.resolution = some p.1 ∧
        first_with_resolution p.1 l = some p.2
  | [], seen => by simp [resolutionsAux]
  | s :: rest, seen => by
    intro p hp
    cases hres : s.resolution with
    | none =>
      simp only [resolutionsAux, hres] at hp
      obtain ⟨h1, h2, h3, h4⟩ := resolutionsAux_spec rest seen p hp
      refine ⟨h1, h2, h3, ?_⟩
      rw [first_with_resolution, List.find?_cons_of_neg _ (by simp [hres])]
      exact h4
    | some r =>
      simp only [resolutionsAux, hres] at hp
      by_cases hcond : r ≠ "" ∧ r ∉ seen
      · rw [if_pos hcond] at hp
        rcases List.mem_cons.mp hp with hp | hp
        · subst hp
          refine ⟨hcond.2, hcond.1, hres, ?_⟩
          rw [first_with_resolution, List.find?_cons_of_pos _ (by simp [hres])]
        · obtain ⟨h1, h2, h3, h4⟩ := resolutionsAux_spec rest (r :: seen) p hp
          have hne : p.1 ≠ r := fun h => h1 (h ▸ List.mem_cons_self r seen)
          refine ⟨fun h => h1 (List.mem_cons_of_mem _ h), h2, h3, ?_⟩
          rw [first_with_resolution, List.find?_cons_of_neg _ (by
            simp only [hres, decide_eq_true_eq, Option.some.injEq]
            exact fun h => hne h.symm)]
          exact h4
      · rw [if_neg hcond] at hp
        obtain ⟨h1, h2, h3, h4⟩ := resolutionsAux_spec rest seen p hp
        have hne : p.1 ≠ r := by
          rcases not_and_or.mp hcond with h | h
          · rw [not_not] at h
            subst h
            exact h2
          · rw [not_not] at h
            exact fun hq => h1 (hq ▸ h)
        refine ⟨h1, h2, h3, ?_⟩
        rw [first_with_resolution, List.find?_cons_of_neg _ (by
          simp only [hres, decide_eq_true_eq, Option.some.injEq]
          exact fun h => hne h.symm)]
        exact h4

/-- The keys of the dict built by the loop are pairwise distinct. -/
theorem resolutionsAux_keys_nodup :
    ∀ (l : List YStream) (seen : List String),
      ((resolutionsAux seen l).map Prod.fst).Nodup
  | [], seen => by simp [resolutionsAux]
  | s :: rest, seen => by
    cases hres : s.resolution with
    | none =>
      simp only [resolutionsAux, hres]
      exact resolutionsAux_keys_nodup rest seen
    | some r =>
      simp only [resolutionsAux, hres]
      by_cases hcond : r ≠ "" ∧ r ∉ seen
      · rw [if_pos hcond]
        refine List.Nodup.cons ?_ (resolutionsAux_keys_nodup rest (r :: seen))
        intro hmem
        obtain ⟨p, hp, hfst⟩ := List.mem_map.mp hmem
        have h1 := (resolutionsAux_spec rest (r :: seen) p hp).1
        exact h1 (hfst ▸ List.mem_cons_self r seen)
      · rw [if_neg hcond]
        exact resolutionsAux_keys_nodup rest seen

/-- C4: the surfaced resolution set contains at most one encoding per
distinct resolution value (no two entries share a key), every surfaced
entry carries the first stream seen at that resolution in the provider's
enumeration order, and streams with an absent or empty resolution never
appear. -/
theorem c4_resolution_dedup (all_streams : List YStream) :
    ((resolutions all_streams).map Prod.fst).Nodup ∧
    ∀ p ∈ resolutions all_streams,
      p.1 ≠ "" ∧ p.2.resolution = some p.1 ∧
      first_with_resolution p.1 all_streams = some p.2 := by
  refine ⟨resolutionsAux_keys_nodup all_streams [], ?_⟩
  intro p hp
  exact (resolutionsAux_spec all_streams [] p hp).2

/-- Witness for C4 on a concrete enumeration with a duplicate "1080p", an
absent resolution and a "720p": the surfaced "1080p" entry is the first
1080p stream of the enumeration. -/
theorem c4_resolution_dedup_witness :
    (("1080p", YStream.mk (some "1080p") false false 50 0) ∈ resolutions
      [YStream.mk (some "1080p") false false 50 0,
       YStream.mk (some "1080p") true false 40 0,
       YStream.mk none true false 10 0,
       YStream.mk (some "720p") true false 30 0]) ∧
    ("1080p" ≠ "" ∧
      (YStream.mk (some "1080p") false false 50 0).resolution = some "1080p" ∧
      first_with_resolution "1080p"
        [YStream.mk (some "1080p") false false 50 0,
         YStream.mk (some "1080p") true false 40 0,
         YStream.mk none true false 10 0,
         YStream.mk (some "720p") true false 30 0]
        = some (YStream.mk (some "1080p") false false 50 0)) :=
  ⟨by decide,
    (c4_resolution_dedup
      [YStream.mk (some "1080p") false false 50 0,
       YStream.mk (some "1080p") true false 40 0,
       YStream.mk none true false 10 0,
       YStream.mk (some "720p") true false 30 0]).2
      ("1080p", YStream.mk (some "1080p") false false 50 0) (by decide)⟩

/-- C5 fails on its own example: `re.sub` deletes the matched characters
without inserting anything, so `"Foo: Bar/Baz?"` becomes `"Foo BarBaz"`
(the slash's neighbours join up), not `"Foo Bar Baz"`. -/
theorem c5_sanitize_counterexample :
    sanitize_filename "Foo: Bar/Baz?" = "Foo BarBaz" ∧
    sanitize_filename "Foo: Bar/Baz?" ≠ "Foo Bar Baz" := by
  constructor <;> decide

/-- C5 amended: the sanitized name is the title with every character of
`<>:"/\|?*` removed and all other characters kept in order (it contains no
illegal character, is a subsequence of the input, and keeps every legal
character); the example `"Foo: Bar/Baz?"` sanitizes to `"Foo BarBaz"`. -/
theorem c5_sanitize_strips :
    (∀ name : String,
        (∀ c ∈ (sanitize_filename name).data, c ∉ illegal_chars) ∧
        (sanitize_filename name).data.Sublist name.data ∧
        (∀ c ∈ name.data, c ∉ illegal_chars → c ∈ (sanitize_filename name).data)) ∧
    sanitize_filename "Foo: Bar/Baz?" = "Foo BarBaz" := by
  constructor
  · intro name
    refine ⟨?_, ?_, ?_⟩
    · intro c hc
      have h := List.of_mem_filter hc
      simpa using h
    · exact List.filter_sublist _
    · intro c hc hnot
      refine List.mem_filter.mpr ⟨hc, ?_⟩
      simpa using hnot
  · decide

/-- Witness for C5 (amended): a character that survives sanitization is
not an illegal one. -/
theorem c5_sanitize_strips_witness :
    ('a' ∈ (sanitize_filename "a<b").data) ∧ 'a' ∉ illegal_chars :=
  ⟨by decide, (c5_sanitize_strips.1 "a<b").1 'a' (by decide)⟩

/-- C9: `merge_audio_video` is a total function of the invocation outcome
(nothing escapes its contract boundary): it returns `true` exactly when
the external remux process exits with code 0, and on every failure —
executable absent or non-zero exit — it returns `false` and reports a
diagnostic. -/
theorem c9_merge_total (run : RunOutcome) :
    ((merge_audio_video run).1 = true ↔ run = RunOutcome.exited 0) ∧
    ((merge_audio_video run).1 = false ↔
      ((merge_audio_video run).2).isSome = true) := by
  cases run with
  | spawnFailed => constructor <;> simp [merge_audio_video]
  | exited code =>
    cases code with
    | zero => constructor <;> simp [merge_audio_video]
    | succ n => constructor <;> simp [merge_audio_video]

/-- C1 fails as stated: when the audio-track download raises after the
video track finished, control jumps to the `except` handler, which shows
the error but deletes nothing — the video temp file stays on disk. -/
theorem c1_cleanup_counterexample :
    (adaptive_download (AdaptiveEnv.mk true DlOutcome.ok DlOutcome.err
        (RunOutcome.exited 0))).disk.temp_video = true ∧
    (adaptive_download (AdaptiveEnv.mk true DlOutcome.ok DlOutcome.err
        (RunOutcome.exited 0))).raised = true := by
  constructor <;> rfl

/-- C1 amended: the two temp-file deletions run exactly when both
downloads complete; they then remove both temporary files on every merge
outcome (success, non-zero exit, or missing ffmpeg), but a failure in
DOWNLOAD_VIDEO or DOWNLOAD_AUDIO skips the cleanup lines entirely. -/
theorem c1_cleanup_after_merge (env : AdaptiveEnv)
    (hv : env.video_dl = DlOutcome.ok) (hb : env.best_audio_present = true)
    (ha : env.audio_dl = DlOutcome.ok) :
    (adaptive_download env).disk.temp_video = false ∧
    (adaptive_download env).disk.temp_audio = false := by
  obtain ⟨b, v, a, m⟩ := env
  dsimp only at hv hb ha
  subst hv
  subst hb
  subst ha
  exact ⟨rfl, rfl⟩

/-- Witness for C1 (amended) at a run whose merge fails with exit code 1:
both temp files are still removed. -/
theorem c1_cleanup_after_merge_witness :
    (AdaptiveEnv.mk true DlOutcome.ok DlOutcome.ok
        (RunOutcome.exited 1)).video_dl = DlOutcome.ok ∧
    (adaptive_download (AdaptiveEnv.mk true DlOutcome.ok DlOutcome.ok
        (RunOutcome.exited 1))).disk.temp_video = false ∧
    (adaptive_download (AdaptiveEnv.mk true DlOutcome.ok DlOutcome.ok
        (RunOutcome.exited 1))).disk.temp_audio = false :=
  ⟨rfl,
    (c1_cleanup_after_merge _ rfl rfl rfl).1,
    (c1_cleanup_after_merge _ rfl rfl rfl).2⟩

/-- `best_audio` is `none` exactly when no audio-only stream exists. -/
theorem best_audio_none_iff (streams : List YStream) :
    best_audio streams = none ↔ streams.filter (fun s => s.only_audio) = [] := by
  rw [best_audio]
  constructor
  · intro h
    rw [List.head?_eq_none_iff] at h
    have hperm := List.mergeSort_perm (streams.filter (·.only_audio))
      (fun a b => b.abr ≤ a.abr)
    rw [h] at hperm
    exact hperm.symm.eq_nil
  · intro h
    rw [h, List.mergeSort_nil]
    rfl

/-- `best_audio` returns an audio-only stream of maximal average bitrate. -/
theorem best_audio_max (streams : List YStream) (a : YStream)
    (h : best_audio streams = some a) :
    a.only_audio = true ∧ ∀ s ∈ streams, s.only_audio = true → s.abr ≤ a.abr := by
  rw [best_audio] at h
  have hsorted := @List.sorted_mergeSort YStream
    (fun a b : YStream => decide (b.abr ≤ a.abr))
    (fun x y z h1 h2 => by
      simp only [decide_eq_true_eq] at h1 h2 ⊢
      exact le_trans h2 h1)
    (fun x y => by
      simp only [Bool.or_eq_true, decide_eq_true_eq]
      exact Nat.le_total _ _)
    (streams.filter (·.only_audio))
  cases hms : (streams.filter (·.only_audio)).mergeSort
      (fun a b : YStream => decide (b.abr ≤ a.abr)) with
  | nil =>
    rw [hms] at h
    exact absurd h (by simp)
  | cons b tl =>
    rw [hms] at h
    simp only [List.head?_cons, Option.some.injEq] at h
    rw [← h]
    rw [hms, List.pairwise_cons] at hsorted
    have hmem : b ∈ (streams.filter (·.only_audio)).mergeSort
        (fun a b : YStream => decide (b.abr ≤ a.abr)) := by
      rw [hms]
      exact List.mem_cons_self _ _
    have hfil := List.mem_mergeSort.mp hmem
    constructor
    · exact (List.mem_filter.mp hfil).2
    · intro s hs hsa
      have hsm : s ∈ (streams.filter (·.only_audio)).mergeSort
          (fun a b : YStream => decide (b.abr ≤ a.abr)) :=
        List.mem_mergeSort.mpr (List.mem_filter.mpr ⟨hs, hsa⟩)
      rw [hms] at hsm
      rcases List.mem_cons.mp hsm with hsm | hsm
      · subst hsm
        exact le_refl _
      · have hle := hsorted.1 s hsm
        simpa using hle

/-- The resolution offered by each `res_options` entry is the entry's key
in the `resolutions` dict — the offered set never depends on the audio
reference. -/
theorem res_options_snd (rs : List (String × YStream)) (asize : ℕ) :
    (res_options rs asize).map Prod.snd = rs.map Prod.fst := by
  induction rs with
  | nil => rfl
  | cons p rest ih =>
    simp only [res_options, List.map_cons] at ih ⊢
    congr 1
    by_cases h : p.2.is_progressive = false
    · rw [if_pos h]
    · rw [if_neg h]

/-- C6 amended: `best_audio` does return the audio-only encoding of
highest average bitrate (absent iff none exists), but when it is absent
adaptive resolutions are still offered — the offered resolution set always
equals the full deduplicated resolution set — and selecting one fails only
at the audio-download step, after the whole video track was fetched,
leaving its temp file behind. -/
theorem c6_no_audio :
    (∀ streams : List YStream,
        (best_audio streams = none ↔
          streams.filter (fun s => s.only_audio) = []) ∧
        ∀ a, best_audio streams = some a → a.only_audio = true ∧
          ∀ s ∈ streams, s.only_audio = true → s.abr ≤ a.abr) ∧
    (∀ (rs : List (String × YStream)) (asize : ℕ),
        (res_options rs asize).map Prod.snd = rs.map Prod.fst) ∧
    (∀ env : AdaptiveEnv, env.best_audio_present = false →
        env.video_dl = DlOutcome.ok →
        (adaptive_download env).raised = true ∧
        (adaptive_download env).merge_success = none ∧
        (adaptive_download env).disk.temp_video = true) := by
  refine ⟨fun streams => ⟨best_audio_none_iff streams,
    fun a h => best_audio_max streams a h⟩, res_options_snd, ?_⟩
  intro env h1 h2
  obtain ⟨b, v, a, m⟩ := env
  dsimp only at h1 h2
  subst h1
  subst h2
  exact ⟨rfl, rfl, rfl⟩

/-- C6 fails as stated: with a single adaptive 1080p stream and no audio
stream at all, `best_audio` is `none`, yet "1080p" — an adaptive
resolution — is still offered in `res_options`. -/
theorem c6_no_audio_counterexample :
    best_audio [YStream.mk (some "1080p") false false 50 0] = none ∧
    (res_options (resolutions [YStream.mk (some "1080p") false false 50 0])
        (audio_size (best_audio
          [YStream.mk (some "1080p") false false 50 0]))).map Prod.snd
      = ["1080p"] ∧
    (resolutions [YStream.mk (some "1080p") false false 50 0]).map
        (YStream.is_progressive ∘ Prod.snd) = [false] := by
  refine ⟨?_, ?_, by decide⟩
  · simp [best_audio]
  · rw [res_options_snd]
    decide

/-- Witness for C6 (amended): with one audio-only stream `best_audio`
returns it and it is audio-only; and an adaptive run with no audio
reference aborts in the exception handler. -/
theorem c6_no_audio_witness :
    best_audio [YStream.mk none false true 5 128]
      = some (YStream.mk none false true 5 128) ∧
    (YStream.mk none false true 5 128).only_audio = true ∧
    (adaptive_download (AdaptiveEnv.mk false DlOutcome.ok DlOutcome.ok
        (RunOutcome.exited 0))).raised = true := by
  have hba : best_audio [YStream.mk none false true 5 128]
      = some (YStream.mk none false true 5 128) := by
    simp [best_audio]
  refine ⟨hba, ?_, ?_⟩
  · exact ((c6_no_audio.1 [YStream.mk none false true 5 128]).2 _ hba).1
  · exact (c6_no_audio.2.2 (AdaptiveEnv.mk false DlOutcome.ok DlOutcome.ok
      (RunOutcome.exited 0)) rfl rfl).1

end ZenithApp
